import Mathlib

/-!
Shallow embedding of the CQL-construction and search-orchestration core of a
Confluence MCP server, together with proofs of its specification claims.

The embedded TypeScript sources are:
* `src/utils/cql.util.ts` — the clause escaper `escapeCqlValue`;
* `src/controllers/atlassian.search.controller.ts` — `buildCqlQuery` and the
  `search` dispatch (advisory vs. execute);
* `src/controllers/atlassian.universal-search.controller.ts` —
  `normalizeOptions`, `buildTypeSpecificCql`, and the federated `search`;
* `src/services/vendor.atlassian.pages.service.ts` — the hybrid
  list-with-fallback flow (`list`, `tryPartialTitleSearch`);
* `src/controllers/atlassian.comments.controller.ts` — `listInlineComments`.

Remote calls are modelled by explicit oracle functions (`Except` results);
`Promise.all` is modelled by its observable outcome: the joined computation
fails when any constituent call fails, and otherwise yields every
per-category result list.
-/

namespace Confluence

/-- Lowercase hexadecimal digit for a value `0 ≤ n < 16`, as emitted by
JavaScript's `JSON.stringify` when producing `\u00XX` escapes. -/
def hexDigitChar (n : Nat) : Char :=
  if n < 10 then Char.ofNat ('0'.toNat + n)
  else Char.ofNat ('a'.toNat + (n - 10))

/-- Per-character escaping rule of ECMA-262 `QuoteJSONString`, which is what
`JSON.stringify` applies to each character of a string: `"` and `\` get a
backslash escape, the five named control characters get their short escapes,
every other control character below U+0020 becomes `\u00XX`, and all other
characters are kept verbatim. -/
def jsonEscapeChar (c : Char) : List Char :=
  if c = '"' then ['\\', '"']
  else if c = '\\' then ['\\', '\\']
  else if c = Char.ofNat 8 then ['\\', 'b']
  else if c = Char.ofNat 9 then ['\\', 't']
  else if c = Char.ofNat 10 then ['\\', 'n']
  else if c = Char.ofNat 12 then ['\\', 'f']
  else if c = Char.ofNat 13 then ['\\', 'r']
  else if c.toNat < 32 then
    ['\\', 'u', '0', '0', hexDigitChar (c.toNat / 16), hexDigitChar (c.toNat % 16)]
  else [c]

/-- `escapeCqlValue` from `src/utils/cql.util.ts`:
`JSON.stringify(value).slice(1, -1)`, i.e. JSON string escaping without the
wrapping double quotes. -/
def escapeCqlValue (s : String) : String :=
  ⟨s.data.flatMap jsonEscapeChar⟩

/-- Value of a hexadecimal digit character, `none` for non-hex characters.
Used by the JSON quoted-literal reader below. -/
def hexDigitToNat? (c : Char) : Option Nat :=
  if '0' ≤ c ∧ c ≤ '9' then some (c.toNat - '0'.toNat)
  else if 'a' ≤ c ∧ c ≤ 'f' then some (c.toNat - 'a'.toNat + 10)
  else if 'A' ≤ c ∧ c ≤ 'F' then some (c.toNat - 'A'.toNat + 10)
  else none

/-- Prepend a decoded character to the value component of a reader result. -/
def consResult (c : Char) (o : Option (List Char × List Char)) :
    Option (List Char × List Char) :=
  o.map fun p => (c :: p.1, p.2)

/-- Reader for the body of a double-quoted JSON string literal: consumes
characters up to an unescaped closing `"`, decoding the JSON escape
sequences, and returns the decoded value together with the input remaining
after the closing quote.  This is the "unescaping" direction of the quoted
CQL literal grammar; the source repository only ever produces literals, so
the reader is the mathematical inverse used to state round-trip claims. -/
def unescapeJsonChars : List Char → Option (List Char × List Char)
  | [] => none
  | c :: rest =>
    if c = '"' then some ([], rest)
    else if c = '\\' then
      match rest with
      | [] => none
      | e :: r =>
        if e = '"' then consResult '"' (unescapeJsonChars r)
        else if e = '\\' then consResult '\\' (unescapeJsonChars r)
        else if e = '/' then consResult '/' (unescapeJsonChars r)
        else if e = 'b' then consResult (Char.ofNat 8) (unescapeJsonChars r)
        else if e = 'f' then consResult (Char.ofNat 12) (unescapeJsonChars r)
        else if e = 'n' then consResult (Char.ofNat 10) (unescapeJsonChars r)
        else if e = 'r' then consResult (Char.ofNat 13) (unescapeJsonChars r)
        else if e = 't' then consResult (Char.ofNat 9) (unescapeJsonChars r)
        else if e = 'u' then
          match r with
          | h1 :: h2 :: h3 :: h4 :: r2 =>
            match hexDigitToNat? h1, hexDigitToNat? h2,
                  hexDigitToNat? h3, hexDigitToNat? h4 with
            | some a, some b, some c2, some d =>
              consResult (Char.ofNat (((a * 16 + b) * 16 + c2) * 16 + d))
                (unescapeJsonChars r2)
            | _, _, _, _ => none
          | _ => none
        else none
    else consResult c (unescapeJsonChars rest)

/-- Non-recursive restatement of the escape-sequence branch of
`unescapeJsonChars`; its unfolding behaves well in proofs, unlike the
deeply nested patterns of the recursive definition. -/
def auxEscape : List Char → Option (List Char × List Char)
  | [] => none
  | e :: r =>
    if e = '"' then consResult '"' (unescapeJsonChars r)
    else if e = '\\' then consResult '\\' (unescapeJsonChars r)
    else if e = '/' then consResult '/' (unescapeJsonChars r)
    else if e = 'b' then consResult (Char.ofNat 8) (unescapeJsonChars r)
    else if e = 'f' then consResult (Char.ofNat 12) (unescapeJsonChars r)
    else if e = 'n' then consResult (Char.ofNat 10) (unescapeJsonChars r)
    else if e = 'r' then consResult (Char.ofNat 13) (unescapeJsonChars r)
    else if e = 't' then consResult (Char.ofNat 9) (unescapeJsonChars r)
    else if e = 'u' then
      match r with
      | h1 :: h2 :: h3 :: h4 :: r2 =>
        match hexDigitToNat? h1, hexDigitToNat? h2,
              hexDigitToNat? h3, hexDigitToNat? h4 with
        | some a, some b, some c2, some d =>
          consResult (Char.ofNat (((a * 16 + b) * 16 + c2) * 16 + d))
            (unescapeJsonChars r2)
        | _, _, _, _ => none
      | _ => none
    else none

/-- Parse a complete double-quoted JSON string literal: an opening `"`, an
escaped body, a closing `"`, and nothing after it. -/
def parseQuotedString (s : String) : Option String :=
  match s.data with
  | '"' :: rest =>
    match unescapeJsonChars rest with
    | some (v, []) => some ⟨v⟩
    | _ => none
  | _ => none

/-- JavaScript `String.prototype.trim`: strip leading and trailing
whitespace.  Defined structurally over the character list so that concrete
instances evaluate inside the kernel. -/
def trimString (s : String) : String :=
  ⟨((s.data.dropWhile Char.isWhitespace).reverse.dropWhile
      Char.isWhitespace).reverse⟩

/-- `Array.prototype.join(sep)`: concatenate with a separator between
consecutive elements.  Defined recursively so that concrete instances
evaluate inside the kernel. -/
def joinSep (sep : String) : List String → String
  | [] => ""
  | [x] => x
  | x :: xs => x ++ sep ++ joinSep sep xs

/-- JavaScript truthiness of an optional string: `undefined`, `null` and the
empty string are falsy, every other string is truthy. -/
def strTruthy : Option String → Bool
  | none => false
  | some s => s ≠ ""

/-! ## Direct search controller (`atlassian.search.controller.ts`) -/

/-- Argument record of the direct-search tool (`SearchToolArgsType`); the
fields read by `buildCqlQuery` and `search`. -/
structure SearchToolArgs where
  title : Option String := none
  spaceKey : Option String := none
  labels : Option (List String) := none
  contentType : Option String := none
  query : Option String := none
  cql : Option String := none
  limit : Option Nat := none
  cursor : Option String := none

/-- The clause list accumulated by `buildCqlQuery` (its `cqlParts` array):
one clause per truthy filter field, in source order.  An `if (options.x)`
guard in the source is JavaScript truthiness, so an empty string contributes
no clause; `options.labels && options.labels.length > 0` requires a supplied,
non-empty label array. -/
def buildCqlParts (o : SearchToolArgs) : List String :=
  (match o.title with
   | some t => if t ≠ "" then ["title ~ \"" ++ escapeCqlValue t ++ "\""] else []
   | none => []) ++
  (match o.spaceKey with
   | some k => if k ≠ "" then ["space = \"" ++ escapeCqlValue k ++ "\""] else []
   | none => []) ++
  (match o.labels with
   | some ls =>
     if ls ≠ [] then ls.map (fun l => "label = \"" ++ escapeCqlValue l ++ "\"") else []
   | none => []) ++
  (match o.contentType with
   | some ct => if ct ≠ "" then ["type = " ++ ct] else []
   | none => []) ++
  (match o.query with
   | some q => if q ≠ "" then ["text ~ \"" ++ escapeCqlValue q ++ "\""] else []
   | none => [])

/-- `buildCqlQuery` from `atlassian.search.controller.ts`: join the generated
clauses with ` AND `; when a raw `cql` override is supplied (truthy and
non-blank after trimming), parenthesize and conjoin it with the generated
part, or return it alone when nothing was generated. -/
def buildCqlQuery (o : SearchToolArgs) : String :=
  let generatedCql := joinSep " AND " (buildCqlParts o)
  match o.cql with
  | some c =>
    if c ≠ "" ∧ trimString c ≠ "" then
      if generatedCql ≠ "" then "(" ++ generatedCql ++ ") AND (" ++ c ++ ")"
      else c
    else generatedCql
  | none => generatedCql

/-- Observable outcome of the `search` controller before any remote
rendering: either a caller-facing advisory message (no remote call is made)
or a remote execution with the given query descriptor. -/
inductive SearchStep where
  | advisory (msg : String)
  | execute (cql : String) (limit : Nat) (cursor : Option String)
  deriving DecidableEq

/-- `DEFAULT_PAGE_SIZE` from `utils/defaults.util.ts` (not part of the
provided sources; the concrete value is irrelevant to every claim, only that
a default exists). -/
def defaultPageSize : Nat := 25

/-- The `search` controller's dispatch (`atlassian.search.controller.ts`):
apply the default limit, build the CQL, and either return the advisory
message (when the built query is empty or blank) or execute the query
with `limit` and `cursor` forwarded. -/
def searchStep (o : SearchToolArgs) : SearchStep :=
  let finalCql := buildCqlQuery o
  if finalCql = "" ∨ trimString finalCql = "" then
    .advisory "Please provide search criteria (CQL, title, space, etc.)."
  else
    .execute finalCql (o.limit.getD defaultPageSize) o.cursor

/-! ## Federated (universal) search
(`atlassian.universal-search.controller.ts`) -/

/-- The five result-section keys of the universal search
(`UniversalSearchSectionKey`). -/
inductive SectionKey where
  | spaces | pages | blogPosts | attachments | comments
  deriving DecidableEq, Repr

/-- `SECTION_TO_CQL_TYPE`: CQL content-type literal of each section. -/
def sectionToCqlType : SectionKey → String
  | .spaces => "space"
  | .pages => "page"
  | .blogPosts => "blogpost"
  | .attachments => "attachment"
  | .comments => "comment"

/-- Argument record of the universal-search tool
(`UniversalSearchToolArgsType`). -/
structure UniversalSearchToolArgs where
  query : Option String := none
  spaceKey : Option String := none
  labels : Option (List String) := none
  includeSpaces : Option Bool := none
  includePages : Option Bool := none
  includeBlogPosts : Option Bool := none
  includeAttachments : Option Bool := none
  includeComments : Option Bool := none
  limitPerType : Option Nat := none

/-- `NormalizedUniversalOptions`: the controller-internal normalized form. -/
structure NormalizedUniversalOptions where
  query : String
  spaceKey : Option String := none
  labels : Option (List String) := none
  includeSpaces : Bool := true
  includePages : Bool := true
  includeBlogPosts : Bool := true
  includeAttachments : Bool := true
  includeComments : Bool := true
  limitPerType : Nat := 5

/-- `DEFAULT_LIMIT_PER_TYPE` of the universal-search controller. -/
def defaultLimitPerType : Nat := 5

/-- `normalizeOptions`: trim the query; trim the space key and drop it when
blank (`|| undefined`); trim each label and drop blank labels (keeping a
possibly empty array when one was supplied); default every include toggle to
`true`; clamp a supplied per-type limit into `[1, 25]`, defaulting to 5. -/
def normalizeOptions (o : UniversalSearchToolArgs) : NormalizedUniversalOptions where
  query := trimString (o.query.getD "")
  spaceKey :=
    match o.spaceKey with
    | some k => if trimString k ≠ "" then some (trimString k) else none
    | none => none
  labels :=
    match o.labels with
    | some ls => some ((ls.map trimString).filter (fun l => l.length > 0))
    | none => none
  includeSpaces := o.includeSpaces.getD true
  includePages := o.includePages.getD true
  includeBlogPosts := o.includeBlogPosts.getD true
  includeAttachments := o.includeAttachments.getD true
  includeComments := o.includeComments.getD true
  limitPerType :=
    match o.limitPerType with
    | some n => min (max n 1) 25
    | none => defaultLimitPerType

/-- The `clauses` array pushed by `buildTypeSpecificCql`: the unconditional
type clause, the unconditional escaped free-text clause, the space clause
when the section is not `spaces` and a space key is truthy, and one label
clause per label when a label array was supplied and the section is pages or
blog posts. -/
def typeSpecificCqlParts (t : SectionKey) (o : NormalizedUniversalOptions) :
    List String :=
  ["type = " ++ sectionToCqlType t,
   "text ~ \"" ++ escapeCqlValue o.query ++ "\""] ++
  (match o.spaceKey with
   | some k =>
     if t ≠ .spaces ∧ k ≠ "" then ["space = \"" ++ escapeCqlValue k ++ "\""]
     else []
   | none => []) ++
  (match o.labels with
   | some ls =>
     if t = .pages ∨ t = .blogPosts then
       ls.map (fun l => "label = \"" ++ escapeCqlValue l ++ "\"")
     else []
   | none => [])

/-- `buildTypeSpecificCql`: the per-section clauses joined with ` AND `. -/
def buildTypeSpecificCql (t : SectionKey) (o : NormalizedUniversalOptions) :
    String :=
  joinSep " AND " (typeSpecificCqlParts t o)

/-- `SearchParams` as assembled by `executeSearchForType`. -/
structure SearchParams where
  cql : String
  limit : Nat
  excerpt : Option String := none
  includeArchivedSpaces : Bool := true

/-- The query descriptor each category call sends to the search service:
highlight excerpts requested, archived spaces excluded. -/
def searchParamsFor (t : SectionKey) (o : NormalizedUniversalOptions) :
    SearchParams where
  cql := buildTypeSpecificCql t o
  limit := o.limitPerType
  excerpt := some "highlight"
  includeArchivedSpaces := false

/-- The fixed iteration order of sections in the controller's
`includedTypes` construction. -/
def categoryOrder : List SectionKey :=
  [.spaces, .pages, .blogPosts, .attachments, .comments]

/-- The include toggle of the normalized options for a given section. -/
def toggleOf (o : NormalizedUniversalOptions) : SectionKey → Bool
  | .spaces => o.includeSpaces
  | .pages => o.includePages
  | .blogPosts => o.includeBlogPosts
  | .attachments => o.includeAttachments
  | .comments => o.includeComments

/-- `includedTypes`: the enabled sections in fixed order. -/
def includedTypes (o : NormalizedUniversalOptions) : List SectionKey :=
  categoryOrder.filter (toggleOf o)

/-- `resultsByType`: the per-section result mapping, with all five keys
present; the controller initializes every key to the empty list before
assigning the resolved results. -/
structure CategoryMap (R : Type) where
  spaces : List R := []
  pages : List R := []
  blogPosts : List R := []
  attachments : List R := []
  comments : List R := []

/-- Read one section's result list from a `CategoryMap`. -/
def getCat (m : CategoryMap R) : SectionKey → List R
  | .spaces => m.spaces
  | .pages => m.pages
  | .blogPosts => m.blogPosts
  | .attachments => m.attachments
  | .comments => m.comments

/-- Overwrite one section's result list (`resultsByType[type] = results`). -/
def setCat (m : CategoryMap R) : SectionKey → List R → CategoryMap R
  | .spaces, rs => { m with spaces := rs }
  | .pages, rs => { m with pages := rs }
  | .blogPosts, rs => { m with blogPosts := rs }
  | .attachments, rs => { m with attachments := rs }
  | .comments, rs => { m with comments := rs }

/-- The joined fan-out (`Promise.all` over `executeSearchForType` calls),
modelled by its observable outcome: the first failing category call fails
the whole join, and a fully successful join yields every category's
`(type, results)` pair. -/
def runCategories (o : NormalizedUniversalOptions)
    (exec : SectionKey → SearchParams → Except E (List R)) :
    List SectionKey → Except E (List (SectionKey × List R))
  | [] => .ok []
  | t :: ts => do
    let rs ← exec t (searchParamsFor t o)
    let rest ← runCategories o exec ts
    pure ((t, rs) :: rest)

/-- Fold the resolved pairs into the pre-initialized `CategoryMap`. -/
def assembleMap (ps : List (SectionKey × List R)) : CategoryMap R :=
  ps.foldl (fun m p => setCat m p.1 p.2) {}

/-- Observable outcome of the universal `search` controller: an advisory
message without any remote call, a surfaced single error, or the assembled
per-category result map. -/
inductive UniversalOutcome (E R : Type) where
  | advisory (msg : String)
  | failure (err : E)
  | success (m : CategoryMap R)

/-- The universal `search` controller over a remote-executor oracle: refuse
a missing/blank query with an advisory, refuse an all-disabled toggle set
with an advisory, and otherwise join the per-category calls — any failure
aborts the whole operation with a single error, and a full success yields
the assembled map. -/
def universalSearch (o : UniversalSearchToolArgs)
    (exec : SectionKey → SearchParams → Except E (List R)) :
    UniversalOutcome E R :=
  if ¬ strTruthy o.query ∨ trimString (o.query.getD "") = "" then
    .advisory "Please provide a search query (for example: `--query \"design\"`)."
  else
    let n := normalizeOptions o
    let included := includedTypes n
    if included = [] then
      .advisory "No content types selected. Enable at least one type (pages, spaces, blog posts, attachments, or comments)."
    else
      match runCategories n exec included with
      | .error e => .failure e
      | .ok ps => .success (assembleMap ps)

/-! ## Hybrid list-pages flow (`vendor.atlassian.pages.service.ts`) -/

/-- The fields of `ListPagesParams` read by the hybrid flow. -/
structure ListPagesParams where
  spaceId : Option (List String) := none
  title : Option String := none
  query : Option String := none
  cursor : Option String := none
  limit : Option Nat := none

/-- The `cqlParts` array of `tryPartialTitleSearch`: a wildcard title clause
interpolating the raw (unescaped) title when one is truthy, a parenthesized
`OR` disjunction of space clauses when space ids were supplied and the
space-lookup collaborator resolved at least one key (a failed or empty
lookup silently drops the constraint), and the unconditional quoted type
restriction.  `resolvedKeys` is the outcome of the
`atlassianSpacesService.list` lookup: `.error` models a thrown lookup,
`.ok keys` the keys of the returned spaces. -/
def partialTitleCqlParts (p : ListPagesParams)
    (resolvedKeys : Except Unit (List String)) : List String :=
  (match p.title with
   | some t => if t ≠ "" then ["title ~ \"" ++ t ++ "*\""] else []
   | none => []) ++
  (match p.spaceId with
   | some ids =>
     if ids ≠ [] then
       match resolvedKeys with
       | .ok keys =>
         if keys ≠ [] then
           ["(" ++ joinSep " OR "
               (keys.map (fun k => "space = \"" ++ k ++ "\"")) ++ ")"]
         else []
       | .error _ => []
     else []
   | none => []) ++
  ["type = \"page\""]

/-- The CQL string executed by `tryPartialTitleSearch`. -/
def partialTitleCql (p : ListPagesParams)
    (resolvedKeys : Except Unit (List String)) : String :=
  joinSep " AND " (partialTitleCqlParts p resolvedKeys)

/-- A validated pages response: the result records plus the cursor link
envelope. -/
structure PagesPage (R : Type) where
  results : List R
  nextLink : Option String := none

/-- The guard of the hybrid fallback in `list`:
`params.title && validatedData.results.length === 0 && !params.cursor`. -/
def hybridFallbackCondition (p : ListPagesParams) (primary : PagesPage R) :
    Bool :=
  strTruthy p.title && primary.results.isEmpty && !(strTruthy p.cursor)

/-- The hybrid resolution of `list` after the primary request validated:
when the fallback guard holds, the partial-title search runs (second
component `true`) and its page is returned only when non-empty, the original
primary page otherwise; when the guard fails, the primary page is returned
unchanged and no fallback query is ever executed (second component
`false`).  `fallbackPage` is the page produced by `tryPartialTitleSearch`
(already transformed to the pages shape; a failed search yields an empty
page there). -/
def hybridList (p : ListPagesParams) (primary : PagesPage R)
    (fallbackPage : PagesPage R) : PagesPage R × Bool :=
  if hybridFallbackCondition p primary then
    if ¬ fallbackPage.results.isEmpty then (fallbackPage, true)
    else (primary, true)
  else (primary, false)

/-- Decidable substring test on character lists: `needle` occurs contiguously
inside `hay`. -/
def startsWithSeq : List Char → List Char → Bool
  | [], _ => true
  | _ :: _, [] => false
  | a :: as, b :: bs => a = b && startsWithSeq as bs

/-- `containsSeq needle hay` holds when some suffix of `hay` starts with
`needle`. -/
def containsSeq (needle : List Char) : List Char → Bool
  | [] => startsWithSeq needle []
  | c :: t => startsWithSeq needle (c :: t) || containsSeq needle t

/-! ## Inline comments listing (`atlassian.comments.controller.ts`) -/

/-- The fields of a comment record read by `listInlineComments`:
`extensions.location`, `extensions.inlineProperties` (presence and its
`markerRef`, `originalSelection`, `textContext`), the comment `id` and
`status`, and the ADF body value. -/
structure CommentData where
  id : String
  status : String := "current"
  location : Option String := none
  hasInlineProps : Bool := false
  markerRef : Option String := none
  originalSelection : Option String := none
  textContext : Option String := none
  adfValue : Option String := none
  convertedMarkdownBody : Option String := none
  highlightedText : Option String := none
  deriving DecidableEq

/-- Sort orders accepted by `listInlineComments`. -/
inductive CommentSortBy where
  | created | position
  deriving DecidableEq

/-- Caller options of `listInlineComments`, with the controller defaults. -/
structure InlineListOptions where
  includeResolved : Bool := false
  sortBy : CommentSortBy := .position
  limit : Nat := 25
  start : Nat := 0

/-- The inline filter of `listInlineComments`: drop non-current comments
unless resolved ones were requested, then keep only comments whose location
is `inline`. -/
def inlineFilter (includeResolved : Bool) (c : CommentData) : Bool :=
  if ¬ includeResolved ∧ c.status ≠ "current" then false
  else c.location = some "inline"

/-- First truthy of two optional strings (JavaScript `a || b`). -/
def orTruthy (a b : Option String) : Option String :=
  match a with
  | some s => if s ≠ "" then some s else b
  | none => b

/-- The per-comment conversion step: spread the comment and add the
converted markdown body (an out-of-scope ADF renderer, supplied as the
oracle `adf2md`, with the controller's placeholder text when no ADF value is
present) and the extracted highlighted text. -/
def convertComment (adf2md : String → String) (c : CommentData) : CommentData :=
  { c with
    convertedMarkdownBody :=
      some (match c.adfValue with
            | some v => adf2md v
            | none => "*Content format not supported or unavailable*")
    highlightedText :=
      if c.hasInlineProps then orTruthy c.originalSelection c.textContext
      else none }

/-- The position sort key: `extensions?.inlineProperties?.markerRef || id`. -/
def positionKey (c : CommentData) : String :=
  match if c.hasInlineProps then c.markerRef else none with
  | some m => if m ≠ "" then m else c.id
  | none => c.id

/-- The offset/limit descriptor of a `listPageComments` service request. -/
structure ServiceRequest where
  limit : Nat
  start : Nat
  deriving DecidableEq

/-- `listInlineComments` over the page's full ordered comment list
(`allComments`, with the offset-based service modelled by its contract
`drop start` then `take limit`): the controller always requests 250 comments
from offset 0, filters to inline comments in memory, converts each, sorts by
the requested order (string comparison modelling `localeCompare`), and
applies the caller's `slice(start, start + limit)` locally.  Returns the
service request it issued together with the final page of comments. -/
def listInlineComments (opts : InlineListOptions) (adf2md : String → String)
    (allComments : List CommentData) : ServiceRequest × List CommentData :=
  let req : ServiceRequest := ⟨250, 0⟩
  let fetched := (allComments.drop req.start).take req.limit
  let inlineCommentsRaw := fetched.filter (inlineFilter opts.includeResolved)
  let convertedComments := inlineCommentsRaw.map (convertComment adf2md)
  let sorted :=
    match opts.sortBy with
    | .position =>
      convertedComments.mergeSort (fun a b => positionKey a ≤ positionKey b)
    | .created =>
      convertedComments.mergeSort (fun a b => a.id ≤ b.id)
  (req, (sorted.drop opts.start).take opts.limit)


theorem unescape_cons (c : Char) (rest : List Char) :
    unescapeJsonChars (c :: rest) =
      if c = '"' then some ([], rest)
      else if c = '\\' then auxEscape rest
      else consResult c (unescapeJsonChars rest) := by
  match rest with
  | [] => simp [unescapeJsonChars, auxEscape]
  | [e] => simp [unescapeJsonChars, auxEscape]
  | [e, a] => simp [unescapeJsonChars, auxEscape]
  | [e, a, b] => simp [unescapeJsonChars, auxEscape]
  | [e, a, b, d] => simp [unescapeJsonChars, auxEscape]
  | e :: a :: b :: d :: f :: r5 => simp [unescapeJsonChars, auxEscape]


theorem hexVal_hexDigitChar (k : Nat) (h : k < 16) :
    hexDigitToNat? (hexDigitChar k) = some k := by
  interval_cases k <;> decide

theorem jsonEscapeChar_of_ge32 (c : Char) (h32 : 32 ≤ c.toNat)
    (hq : c ≠ '"') (hb : c ≠ '\\') : jsonEscapeChar c = [c] := by
  have h8 : c ≠ Char.ofNat 8 := by intro e; rw [e] at h32; exact absurd h32 (by decide)
  have h9 : c ≠ Char.ofNat 9 := by intro e; rw [e] at h32; exact absurd h32 (by decide)
  have h10 : c ≠ Char.ofNat 10 := by intro e; rw [e] at h32; exact absurd h32 (by decide)
  have h12 : c ≠ Char.ofNat 12 := by intro e; rw [e] at h32; exact absurd h32 (by decide)
  have h13 : c ≠ Char.ofNat 13 := by intro e; rw [e] at h32; exact absurd h32 (by decide)
  unfold jsonEscapeChar
  rw [if_neg hq, if_neg hb, if_neg h8, if_neg h9, if_neg h10, if_neg h12,
    if_neg h13, if_neg (by omega)]

theorem auxEscape_u (h3 h4 : Char) (a b : Nat) (rest : List Char)
    (hd3 : hexDigitToNat? h3 = some a) (hd4 : hexDigitToNat? h4 = some b) :
    auxEscape ('u' :: '0' :: '0' :: h3 :: h4 :: rest) =
      consResult (Char.ofNat (a * 16 + b)) (unescapeJsonChars rest) := by
  unfold auxEscape
  simp [hd3, hd4, show hexDigitToNat? '0' = some 0 from by decide]

theorem unescape_jsonEscapeChar (c : Char) (rest : List Char) :
    unescapeJsonChars (jsonEscapeChar c ++ rest) =
      consResult c (unescapeJsonChars rest) := by
  by_cases hq : c = '"'
  · subst hq
    simp [jsonEscapeChar, unescape_cons, auxEscape]
  by_cases hb : c = '\\'
  · subst hb
    simp [jsonEscapeChar, unescape_cons, auxEscape]
  by_cases h32 : c.toNat < 32
  · unfold jsonEscapeChar
    rw [if_neg hq, if_neg hb]
    split_ifs with e8 e9 e10 e12 e13
    · subst e8; simp [unescape_cons, auxEscape]
    · subst e9; simp [unescape_cons, auxEscape]
    · subst e10; simp [unescape_cons, auxEscape]
    · subst e12; simp [unescape_cons, auxEscape]
    · subst e13; simp [unescape_cons, auxEscape]
    · have hd1 : hexDigitToNat? (hexDigitChar (c.toNat / 16)) = some (c.toNat / 16) :=
        hexVal_hexDigitChar _ (by omega)
      have hd2 : hexDigitToNat? (hexDigitChar (c.toNat % 16)) = some (c.toNat % 16) :=
        hexVal_hexDigitChar _ (by omega)
      simp only [List.cons_append, List.nil_append]
      rw [unescape_cons, if_neg (by decide), if_pos rfl,
        auxEscape_u _ _ _ _ _ hd1 hd2]
      have harith : c.toNat / 16 * 16 + c.toNat % 16 = c.toNat := by omega
      rw [harith, Char.ofNat_toNat]
  · rw [jsonEscapeChar_of_ge32 c (by omega) hq hb]
    show unescapeJsonChars (c :: rest) = _
    rw [unescape_cons, if_neg hq, if_neg hb]

theorem unescape_flatMap (l tail : List Char) :
    unescapeJsonChars (l.flatMap jsonEscapeChar ++ '"' :: tail) = some (l, tail) := by
  induction l with
  | nil =>
    simp only [List.flatMap_nil, List.nil_append]
    rw [unescape_cons]
    simp
  | cons c t ih =>
    rw [List.flatMap_cons, List.append_assoc, unescape_jsonEscapeChar, ih]
    rfl


theorem parseQuoted_escape (s : String) :
    parseQuotedString ("\"" ++ escapeCqlValue s ++ "\"") = some s := by
  have hdata : ("\"" ++ escapeCqlValue s ++ "\"").data =
      '"' :: (s.data.flatMap jsonEscapeChar ++ '"' :: []) := by
    rw [String.data_append, String.data_append]
    rfl
  unfold parseQuotedString
  rw [hdata]
  simp [unescape_flatMap]

/-- C7: wrapping the escaper's output in double quotes yields a quoted JSON
literal whose parsed value is the original string, for every input that
contains a double quote or a backslash. -/
theorem escape_roundTrip (s : String)
    (h : '"' ∈ s.data ∨ '\\' ∈ s.data) :
    parseQuotedString ("\"" ++ escapeCqlValue s ++ "\"") = some s :=
  parseQuoted_escape s

theorem escape_roundTrip_witness :
    ('"' ∈ "a\"b".data ∨ '\\' ∈ "a\"b".data) ∧
    parseQuotedString ("\"" ++ escapeCqlValue "a\"b" ++ "\"") = some "a\"b" :=
  ⟨Or.inl (by decide), escape_roundTrip "a\"b" (Or.inl (by decide))⟩


theorem jsonEscapeChar_control (c : Char) (h : c.toNat < 32) :
    (jsonEscapeChar c).head? = some '\\' ∧ jsonEscapeChar c ≠ [c] := by
  have hq : c ≠ '"' := by intro e; rw [e] at h; exact absurd h (by decide)
  have hb : c ≠ '\\' := by intro e; rw [e] at h; exact absurd h (by decide)
  unfold jsonEscapeChar
  rw [if_neg hq, if_neg hb]
  split_ifs with h8 h9 h10 h12 h13
  · subst h8; exact ⟨rfl, by decide⟩
  · subst h9; exact ⟨rfl, by decide⟩
  · subst h10; exact ⟨rfl, by decide⟩
  · subst h12; exact ⟨rfl, by decide⟩
  · subst h13; exact ⟨rfl, by decide⟩
  · exact ⟨rfl, by simp⟩

theorem escapeCqlValue_fixed (s : String)
    (h : ∀ c ∈ s.data, 32 ≤ c.toNat ∧ c ≠ '"' ∧ c ≠ '\\') :
    escapeCqlValue s = s := by
  obtain ⟨l⟩ := s
  show (⟨l.flatMap jsonEscapeChar⟩ : String) = ⟨l⟩
  congr 1
  induction l with
  | nil => rfl
  | cons c t ih =>
    rw [List.flatMap_cons]
    obtain ⟨h1, h2, h3⟩ := h c (by simp)
    rw [jsonEscapeChar_of_ge32 c h1 h2 h3]
    simp only [List.cons_append, List.nil_append]
    rw [ih (fun c hc => h c (by simp [hc]))]

/-- C9 counterexample: the escaper does not leave newline characters
unchanged — a lone newline becomes the two-character sequence backslash-n. -/
theorem escape_newline_changed :
    escapeCqlValue "\n" = "\\n" ∧ ("\\n" : String) ≠ "\n" := by
  constructor
  · rfl
  · decide

/-- C9 (amended): the escaper maps the empty string to itself, escapes `"`
and `\` with a backslash, also escapes every control character below U+0020
(named short escapes or `\u00XX`, so newlines and tabs are changed), and
leaves every character at or above U+0020 other than `"` and `\` unchanged;
a string of such characters is a fixed point. -/
theorem escape_charClasses :
    escapeCqlValue "" = "" ∧
    jsonEscapeChar '"' = ['\\', '"'] ∧
    jsonEscapeChar '\\' = ['\\', '\\'] ∧
    (∀ c : Char, 32 ≤ c.toNat → c ≠ '"' → c ≠ '\\' → jsonEscapeChar c = [c]) ∧
    (∀ c : Char, c.toNat < 32 →
      (jsonEscapeChar c).head? = some '\\' ∧ jsonEscapeChar c ≠ [c]) ∧
    (∀ s : String, (∀ c ∈ s.data, 32 ≤ c.toNat ∧ c ≠ '"' ∧ c ≠ '\\') →
      escapeCqlValue s = s) := by
  refine ⟨rfl, rfl, rfl, jsonEscapeChar_of_ge32, jsonEscapeChar_control,
    escapeCqlValue_fixed⟩

theorem escape_charClasses_witness :
    jsonEscapeChar 'x' = ['x'] ∧
    (jsonEscapeChar (Char.ofNat 9)).head? = some '\\' ∧
    escapeCqlValue "Dev Space" = "Dev Space" :=
  ⟨escape_charClasses.2.2.2.1 'x' (by decide) (by decide) (by decide),
   (escape_charClasses.2.2.2.2.1 (Char.ofNat 9) (by decide)).1,
   escape_charClasses.2.2.2.2.2 "Dev Space" (by decide)⟩


/-- C3: with no filter fields set and no raw override, the synthesizer
returns the empty string and the search operation dispatches to the
caller-facing advisory without executing any remote query. -/
theorem emptyCriteria_advisory (o : SearchToolArgs)
    (ht : o.title = none) (hs : o.spaceKey = none) (hl : o.labels = none)
    (hc : o.contentType = none) (hq : o.query = none) (hcql : o.cql = none) :
    buildCqlQuery o = "" ∧
    searchStep o =
      .advisory "Please provide search criteria (CQL, title, space, etc.)." := by
  obtain ⟨t, s, l, c, q, cq, lim, cur⟩ := o
  simp only at ht hs hl hc hq hcql
  subst ht hs hl hc hq hcql
  constructor
  · rfl
  · rfl

theorem emptyCriteria_advisory_witness :
    buildCqlQuery {} = "" ∧
    searchStep {} =
      .advisory "Please provide search criteria (CQL, title, space, etc.)." :=
  emptyCriteria_advisory {} rfl rfl rfl rfl rfl rfl

/-- C8 counterexample: the content-type clause emitted by the direct-search
synthesizer is `type = page` — its value is not enclosed in double quotes
(the clause contains no double-quote character at all), refuting the claim
that every emitted clause has the quoted `field OP "value"` form. -/
theorem typeClause_unquoted :
    buildCqlParts { contentType := some "page" } = ["type = page"] ∧
    ("type = page".data.contains '"') = false := by
  constructor
  · rfl
  · rfl


/-- C8 (amended): every clause emitted by the two query synthesizers has the
form `field OP "value"` with the value enclosed in double quotes and
`OP ∈ {~, =}` (`~` for title and free-text, `=` for space and label) —
except the content-type clause, which both synthesizers emit unquoted as
`type = <literal>`. -/
theorem clause_shapes :
    (∀ (o : SearchToolArgs) cl, cl ∈ buildCqlParts o →
      (∃ v, cl = "title ~ \"" ++ v ++ "\"") ∨
      (∃ v, cl = "space = \"" ++ v ++ "\"") ∨
      (∃ v, cl = "label = \"" ++ v ++ "\"") ∨
      (∃ v, cl = "text ~ \"" ++ v ++ "\"") ∨
      (∃ t, cl = "type = " ++ t)) ∧
    (∀ (t : SectionKey) (n : NormalizedUniversalOptions) cl,
      cl ∈ typeSpecificCqlParts t n →
      cl = "type = " ++ sectionToCqlType t ∨
      (∃ v, cl = "text ~ \"" ++ v ++ "\"") ∨
      (∃ v, cl = "space = \"" ++ v ++ "\"") ∨
      (∃ v, cl = "label = \"" ++ v ++ "\"")) := by
  constructor
  · intro o cl hcl
    unfold buildCqlParts at hcl
    simp only [List.mem_append] at hcl
    rcases hcl with ((((h | h) | h) | h) | h)
    · split at h
      · split at h
        · simp at h; exact Or.inl ⟨_, h⟩
        · simp at h
      · simp at h
    · split at h
      · split at h
        · simp at h; exact Or.inr (Or.inl ⟨_, h⟩)
        · simp at h
      · simp at h
    · split at h
      · split at h
        · simp only [List.mem_map] at h
          obtain ⟨l, _, hl⟩ := h
          exact Or.inr (Or.inr (Or.inl ⟨_, hl.symm⟩))
        · simp at h
      · simp at h
    · split at h
      · split at h
        · simp at h; exact Or.inr (Or.inr (Or.inr (Or.inr ⟨_, h⟩)))
        · simp at h
      · simp at h
    · split at h
      · split at h
        · simp at h; exact Or.inr (Or.inr (Or.inr (Or.inl ⟨_, h⟩)))
        · simp at h
      · simp at h
  · intro t n cl hcl
    unfold typeSpecificCqlParts at hcl
    simp only [List.cons_append, List.nil_append, List.mem_cons,
      List.mem_append] at hcl
    rcases hcl with h | h | (h | h)
    · exact Or.inl h
    · exact Or.inr (Or.inl ⟨_, h⟩)
    · split at h
      · split at h
        · simp at h; exact Or.inr (Or.inr (Or.inl ⟨_, h⟩))
        · simp at h
      · simp at h
    · split at h
      · split at h
        · simp only [List.mem_map] at h
          obtain ⟨l, _, hl⟩ := h
          exact Or.inr (Or.inr (Or.inr ⟨_, hl.symm⟩))
        · simp at h
      · simp at h

theorem clause_shapes_witness :
    ((∃ v, "title ~ \"Balance\"" = "title ~ \"" ++ v ++ "\"") ∨
      (∃ v, ("title ~ \"Balance\"" : String) = "space = \"" ++ v ++ "\"") ∨
      (∃ v, ("title ~ \"Balance\"" : String) = "label = \"" ++ v ++ "\"") ∨
      (∃ v, ("title ~ \"Balance\"" : String) = "text ~ \"" ++ v ++ "\"") ∨
      (∃ t, ("title ~ \"Balance\"" : String) = "type = " ++ t)) ∧
    (("type = page" : String) = "type = " ++ sectionToCqlType .pages ∨
      (∃ v, ("type = page" : String) = "text ~ \"" ++ v ++ "\"") ∨
      (∃ v, ("type = page" : String) = "space = \"" ++ v ++ "\"") ∨
      (∃ v, ("type = page" : String) = "label = \"" ++ v ++ "\"")) :=
  ⟨clause_shapes.1 { title := some "Balance" } _ (by decide),
   clause_shapes.2 .pages { query := "" } _ (by decide)⟩


/-- C1: for a non-empty query, the category-scoped CQL is exactly the
unconditional `type = <categoryLiteral>` clause, then `text ~ "<escaped
query>"`, then — only when a space filter is supplied and the category is
not spaces — `space = "<escaped spaceKey>"`, then — only when labels are
supplied and the category is pages or blog posts — one `label =
"<escaped label>"` clause per label, joined with ` AND ` in that order.
The hypothesis on `spaceKey` records the normalizer's guarantee that a
supplied space filter is non-blank. -/
theorem typeSpecificCql_exact (t : SectionKey) (o : NormalizedUniversalOptions)
    (hq : o.query ≠ "") (hsk : ∀ k, o.spaceKey = some k → k ≠ "") :
    buildTypeSpecificCql t o = joinSep " AND "
      (["type = " ++ sectionToCqlType t,
        "text ~ \"" ++ escapeCqlValue o.query ++ "\""] ++
       (match o.spaceKey with
        | some k =>
          if t ≠ .spaces then ["space = \"" ++ escapeCqlValue k ++ "\""] else []
        | none => []) ++
       (match o.labels with
        | some ls =>
          if t = .pages ∨ t = .blogPosts then
            ls.map (fun l => "label = \"" ++ escapeCqlValue l ++ "\"")
          else []
        | none => [])) := by
  clear hq
  unfold buildTypeSpecificCql typeSpecificCqlParts
  congr 2
  cases h : o.spaceKey with
  | none => rfl
  | some k =>
    have hk := hsk k h
    simp [hk]

theorem typeSpecificCql_exact_witness :
    buildTypeSpecificCql .pages
        { query := "design", spaceKey := some "DEV", labels := some ["x", "y"] } =
      joinSep " AND "
        (["type = " ++ sectionToCqlType .pages,
          "text ~ \"" ++ escapeCqlValue "design" ++ "\""] ++
         ["space = \"" ++ escapeCqlValue "DEV" ++ "\""] ++
         ["label = \"" ++ escapeCqlValue "x" ++ "\"",
          "label = \"" ++ escapeCqlValue "y" ++ "\""]) :=
  typeSpecificCql_exact .pages
    { query := "design", spaceKey := some "DEV", labels := some ["x", "y"] }
    (by decide) (by intro k hk; cases hk; decide)


/-- C4: whenever the list-pages request carries a pagination cursor, the
hybrid flow returns the primary page unchanged and never executes the
fallback query — even when the primary page has zero records. -/
theorem cursor_blocks_fallback {R : Type} (p : ListPagesParams)
    (primary fallbackPage : PagesPage R) (h : strTruthy p.cursor = true) :
    hybridList p primary fallbackPage = (primary, false) := by
  unfold hybridList hybridFallbackCondition
  rw [h]
  simp

theorem cursor_blocks_fallback_witness :
    hybridList { title := some "Balance", cursor := some "tok" }
        ({ results := [] } : PagesPage Nat) { results := [7] } =
      ({ results := [] }, false) :=
  cursor_blocks_fallback _ _ _ (by decide)

/-- C2 counterexample: for the title `A"B` (empty primary page, no cursor)
the fallback guard holds, yet the synthesized fallback query does not
contain the clause `title ~ "<escapedTitle>*"` built from the Clause
Escaper's output — the title is interpolated without escaping, so the
escaped clause (which contains a backslash) occurs nowhere in the query. -/
theorem fallback_title_unescaped :
    hybridFallbackCondition { title := some "A\"B" }
        ({ results := [] } : PagesPage Nat) = true ∧
    containsSeq ("title ~ \"" ++ escapeCqlValue "A\"B" ++ "*\"").data
        (partialTitleCql { title := some "A\"B" } (.ok [])).data = false := by
  constructor
  · rfl
  · rfl

/-- C2 (amended): under the fallback conditions (title filter set, primary
page empty, no pagination token) the fallback executes, and its clause list
contains the wildcard clause `title ~ "<title>*"` built from the raw,
unescaped title; in particular for title `Balance` the executed query is
`title ~ "Balance*" AND type = "page"`. -/
theorem fallback_title_clause :
    (∀ {R : Type} (p : ListPagesParams) (rk : Except Unit (List String))
       (t : String) (primary : PagesPage R),
       p.title = some t → t ≠ "" → primary.results = [] →
       strTruthy p.cursor = false →
       hybridFallbackCondition p primary = true ∧
       ("title ~ \"" ++ t ++ "*\"") ∈ partialTitleCqlParts p rk) ∧
    partialTitleCql { title := some "Balance" } (.ok []) =
      "title ~ \"Balance*\" AND type = \"page\"" := by
  constructor
  · intro R p rk t primary hpt ht hres hcur
    constructor
    · unfold hybridFallbackCondition
      rw [hpt, hres, hcur]
      simp [strTruthy, ht]
    · unfold partialTitleCqlParts
      rw [hpt]
      simp [ht]
  · rfl

theorem fallback_title_clause_witness :
    (hybridFallbackCondition { title := some "Balance" }
        ({ results := [] } : PagesPage Nat) = true ∧
      ("title ~ \"Balance*\"") ∈
        partialTitleCqlParts { title := some "Balance" } (.ok [])) ∧
    partialTitleCql { title := some "Balance" } (.ok []) =
      "title ~ \"Balance*\" AND type = \"page\"" :=
  ⟨fallback_title_clause.1 { title := some "Balance" } (.ok []) "Balance"
      { results := [] } rfl (by decide) rfl rfl,
   fallback_title_clause.2⟩


theorem runCategories_error_of_mem {E R : Type} (n : NormalizedUniversalOptions)
    (exec : SectionKey → SearchParams → Except E (List R))
    (l : List SectionKey) (t : SectionKey) (ht : t ∈ l) (e : E)
    (he : exec t (searchParamsFor t n) = .error e) :
    ∃ e2, runCategories n exec l = .error e2 := by
  induction l with
  | nil => cases ht
  | cons u ts ih =>
    cases hu : exec u (searchParamsFor u n) with
    | error e3 =>
      exact ⟨e3, by simp only [runCategories, hu]; rfl⟩
    | ok rs =>
      rcases List.mem_cons.mp ht with rfl | hts
      · rw [hu] at he; cases he
      · obtain ⟨e2, h2⟩ := ih hts
        exact ⟨e2, by simp only [runCategories, hu, h2]; rfl⟩

theorem runCategories_ok_keys {E R : Type} (n : NormalizedUniversalOptions)
    (exec : SectionKey → SearchParams → Except E (List R))
    (l : List SectionKey)
    (h : ∀ t ∈ l, ∃ rs, exec t (searchParamsFor t n) = .ok rs) :
    ∃ ps, runCategories n exec l = .ok ps ∧ ps.map Prod.fst = l := by
  induction l with
  | nil => exact ⟨[], rfl, rfl⟩
  | cons u ts ih =>
    obtain ⟨rs, hrs⟩ := h u (List.mem_cons_self u ts)
    obtain ⟨ps, hps, hkeys⟩ := ih (fun t ht => h t (List.mem_cons_of_mem u ht))
    refine ⟨(u, rs) :: ps, ?_, by simp [hkeys]⟩
    simp only [runCategories, hrs, hps]; rfl

theorem getCat_setCat_ne {R : Type} (m : CategoryMap R) (u t : SectionKey)
    (rs : List R) (h : t ≠ u) : getCat (setCat m u rs) t = getCat m t := by
  cases u <;> cases t <;> first | rfl | exact absurd rfl h

theorem getCat_foldl_not_mem {R : Type} (ps : List (SectionKey × List R))
    (t : SectionKey) (h : t ∉ ps.map Prod.fst) :
    ∀ m, getCat (ps.foldl (fun m p => setCat m p.1 p.2) m) t = getCat m t := by
  induction ps with
  | nil => intro m; rfl
  | cons p ps ih =>
    intro m
    simp only [List.map_cons, List.mem_cons, not_or] at h
    rw [List.foldl_cons, ih h.2, getCat_setCat_ne _ _ _ _ h.1]

/-- C5: if any enabled category's remote call fails, the whole federated
search fails with a single surfaced error and produces no category result
map. -/
theorem universalSearch_failure {E R : Type} (o : UniversalSearchToolArgs)
    (exec : SectionKey → SearchParams → Except E (List R)) (q : String)
    (hq : o.query = some q) (hq2 : trimString q ≠ "") (t : SectionKey)
    (ht : t ∈ includedTypes (normalizeOptions o)) (e : E)
    (he : exec t (searchParamsFor t (normalizeOptions o)) = .error e) :
    ∃ e2, universalSearch o exec = .failure e2 := by
  have hqne : q ≠ "" := by
    intro h0; subst h0; exact hq2 rfl
  have hinc : includedTypes (normalizeOptions o) ≠ [] := by
    intro h0; rw [h0] at ht; cases ht
  obtain ⟨e2, h2⟩ := runCategories_error_of_mem (normalizeOptions o) exec _ t ht e he
  refine ⟨e2, ?_⟩
  unfold universalSearch
  rw [hq]
  simp only [strTruthy, hqne, Option.getD_some]
  rw [if_neg (by simp [hqne, hq2]), if_neg hinc, h2]

/-- C6: when every enabled category's remote call succeeds, the federated
search produces a `CategoryMap` — a total mapping over all five category
keys by construction — in which every key whose category was not enabled
maps to the empty list. -/
theorem universalSearch_success {E R : Type} (o : UniversalSearchToolArgs)
    (exec : SectionKey → SearchParams → Except E (List R)) (q : String)
    (hq : o.query = some q) (hq2 : trimString q ≠ "")
    (hinc : includedTypes (normalizeOptions o) ≠ [])
    (hok : ∀ t ∈ includedTypes (normalizeOptions o),
      ∃ rs, exec t (searchParamsFor t (normalizeOptions o)) = .ok rs) :
    ∃ m, universalSearch o exec = .success m ∧
      ∀ t, t ∉ includedTypes (normalizeOptions o) → getCat m t = [] := by
  have hqne : q ≠ "" := by
    intro h0; subst h0; exact hq2 rfl
  obtain ⟨ps, hps, hkeys⟩ := runCategories_ok_keys (normalizeOptions o) exec _ hok
  refine ⟨assembleMap ps, ?_, ?_⟩
  · unfold universalSearch
    rw [hq]
    simp only [strTruthy, hqne, Option.getD_some]
    rw [if_neg (by simp [hqne, hq2]), if_neg hinc, hps]
  · intro t ht
    unfold assembleMap
    rw [getCat_foldl_not_mem ps t (by rw [hkeys]; exact ht)]
    cases t <;> rfl


theorem universalSearch_failure_witness :
    ∃ e2, universalSearch { query := some "x" }
        (fun t _ => if t = .pages then Except.error "boom"
                    else Except.ok ([] : List Nat)) = .failure e2 :=
  universalSearch_failure { query := some "x" } _ "x" rfl (by decide)
    .pages (by decide) "boom" rfl

theorem universalSearch_success_witness :
    ∃ m, universalSearch
        { query := some "x", includeSpaces := some false,
          includeBlogPosts := some false, includeAttachments := some false,
          includeComments := some false }
        (fun (_ : SectionKey) (_ : SearchParams) => (Except.ok [1, 2] : Except String (List Nat))) =
          .success m ∧
      ∀ t, t ∉ includedTypes (normalizeOptions
        { query := some "x", includeSpaces := some false,
          includeBlogPosts := some false, includeAttachments := some false,
          includeComments := some false }) → getCat m t = [] :=
  universalSearch_success (E := String) _ _ "x" rfl (by decide) (by decide)
    (fun t _ => ⟨[1, 2], rfl⟩)


/-- C10: regardless of the caller's `limit` and `start`, the inline-comments
listing asks the comments service for a fixed page of 250 comments from
offset 0 and does all filtering, sorting and slicing in memory, so every
returned comment comes from the first 250 comments of the page — a comment
beyond them is never returned. -/
theorem inlineComments_fixed250 (opts : InlineListOptions)
    (adf2md : String → String) (allComments : List CommentData) :
    (listInlineComments opts adf2md allComments).1 = ⟨250, 0⟩ ∧
    ∀ x ∈ (listInlineComments opts adf2md allComments).2,
      x.id ∈ (allComments.take 250).map CommentData.id := by
  constructor
  · rfl
  · intro x hx
    unfold listInlineComments at hx
    simp only at hx
    have hx2 := List.mem_of_mem_take hx
    have hx3 := List.mem_of_mem_drop hx2
    have hx4 : x ∈ ((((allComments.drop 0).take 250).filter
        (inlineFilter opts.includeResolved)).map (convertComment adf2md)) := by
      cases hsb : opts.sortBy with
      | position =>
        rw [hsb] at hx3
        exact (List.mergeSort_perm _ _).mem_iff.mp hx3
      | created =>
        rw [hsb] at hx3
        exact (List.mergeSort_perm _ _).mem_iff.mp hx3
    obtain ⟨c, hc, hcx⟩ := List.mem_map.mp hx4
    have hc2 : c ∈ (allComments.drop 0).take 250 := List.mem_of_mem_filter hc
    rw [List.drop_zero] at hc2
    have hid : x.id = c.id := by rw [← hcx]; rfl
    rw [hid]
    exact List.mem_map.mpr ⟨c, hc2, rfl⟩

theorem inlineComments_fixed250_witness :
    (listInlineComments {} (fun _ => "md")
        [{ id := "1", location := some "inline" }]).1 = ⟨250, 0⟩ ∧
    (convertComment (fun _ => "md") { id := "1", location := some "inline" }).id ∈
      (([{ id := "1", location := some "inline" }] : List CommentData).take 250).map
        CommentData.id :=
  ⟨(inlineComments_fixed250 {} (fun _ => "md") _).1,
   (inlineComments_fixed250 {} (fun _ => "md")
      [{ id := "1", location := some "inline" }]).2 _ (by
        unfold listInlineComments
        simp only []
        rw [show (([{ id := "1", location := some "inline" }] :
            List CommentData).drop 0).take 250 =
            [{ id := "1", location := some "inline" }] from rfl]
        rw [show (([{ id := "1", location := some "inline" }] :
            List CommentData).filter (inlineFilter false)) =
            [{ id := "1", location := some "inline" }] from rfl]
        simp [List.mergeSort_singleton])⟩

end Confluence
